import Mathlib

/-!
Verification development for the trickster read-through HTTP caching proxy.

Each Go function under scrutiny is shallowly embedded as an executable Lean
definition; cache back-ends and third-party codecs (msgp marshalling, snappy
compression) are external collaborators and appear as explicit parameters
with their contracts stated as hypotheses.
-/

namespace Trickster

/-! ## Cache engine: internal/proxy/engines/cache.go -/

/-- Model of model.HTTPDocument: status code, status text, headers
(http.Header, a map from header name to the list of values) and body bytes. -/
structure HTTPDocument where
  statusCode : Nat
  status : String
  headers : List (String × List String)
  body : List Nat
deriving DecidableEq, Repr

/-- Go delete(d.Headers, name): removes the entry for the given header name. -/
def deleteHeader (name : String) (h : List (String × List String)) :
    List (String × List String) :=
  h.filter (fun p => p.1 != name)

/-- Line 62 of cache.go: the document with its Date header deleted, exactly as
WriteCache mutates its argument before serializing. -/
def docSansDate (d : HTTPDocument) : HTTPDocument :=
  { d with headers := deleteHeader ("Date") d.headers }

/-- Model of the relevant part of cache.Options used by the engine: whether
the cache compresses stored values. -/
structure CacheConfig where
  compression : Bool
deriving DecidableEq, Repr

/-- State of a cache back-end: its configuration plus the stored key/value
pairs. Concrete back-ends (memory, bbolt, redis, ...) are out of scope; the
model is the common key→bytes map they all implement. -/
structure CacheState where
  config : CacheConfig
  store : List (String × List Nat)
deriving DecidableEq, Repr

/-- Cache.Store: replaces any previous value for the key; the map back-end
always succeeds (unreachable-backend failures are out of scope). -/
def cacheStoreOp (st : CacheState) (key : String) (value : List Nat) (ttl : Int) :
    CacheState × Option String :=
  ({ st with store := (key, value) :: st.store.filter (fun p => p.1 != key) }, none)

/-- Cache.Retrieve: none models the NotFound / Expired error returns. -/
def cacheRetrieveOp (st : CacheState) (key : String) : Option (List Nat) :=
  (st.store.find? (fun p => p.1 == key)).map Prod.snd

/-- External codecs used by the engine: msgp-generated MarshalMsg /
UnmarshalMsg on HTTPDocument, and the snappy block codec. UnmarshalMsg is
total: on malformed input msgp leaves the receiver partially filled, and the
engine ignores its error, so the model only records the resulting document.
snappyDecode returns none on a corrupt block. -/
structure Codec where
  marshalMsg : HTTPDocument → Option (List Nat)
  unmarshalMsg : List Nat → HTTPDocument
  snappyEncode : List Nat → List Nat
  snappyDecode : List Nat → Option (List Nat)

/-- Key written by WriteCache (cache.go lines 68-69): the .sz suffix is
appended exactly when the cache config enables compression. -/
def writeCacheKey (compression : Bool) (key : String) : String :=
  if compression then key ++ ".sz" else key

/-- Key read by QueryCache (cache.go lines 37-40): the .sz suffix is appended
exactly when the cache config enables compression. -/
def queryCacheKey (compression : Bool) (key : String) : String :=
  if compression then key ++ ".sz" else key

/-- WriteCache (cache.go lines 60-75): delete the Date header, marshal, then
compress and append .sz to the key when configured, and store. Returns the
updated cache state and the error result. -/
def WriteCache (cd : Codec) (st : CacheState) (key : String) (d : HTTPDocument)
    (ttl : Int) : CacheState × Option String :=
  let d1 := docSansDate d
  match cd.marshalMsg d1 with
  | none => (st, some ("marshal error"))
  | some bs =>
    if st.config.compression then
      cacheStoreOp st (writeCacheKey true key) (cd.snappyEncode bs) ttl
    else
      cacheStoreOp st (writeCacheKey false key) bs ttl

/-- Empty HTTPDocument, the receiver QueryCache allocates at line 42. -/
def emptyDoc : HTTPDocument :=
  { statusCode := 0, status := "", headers := [], body := [] }

/-- QueryCache (cache.go lines 29-57): append .sz to the key when the config
enables compression, retrieve, return the retrieve error if any; otherwise
attempt snappy decode (keeping the raw bytes if it fails), unmarshal with the
error ignored, and return the document with a nil error. -/
def QueryCache (cd : Codec) (st : CacheState) (key : String) :
    HTTPDocument × Option String :=
  let inflate := st.config.compression
  let key1 := queryCacheKey inflate key
  match cacheRetrieveOp st key1 with
  | none => (emptyDoc, some ("not found"))
  | some bs =>
    let bs1 :=
      if inflate then
        match cd.snappyDecode bs with
        | some b => b
        | none => bs
      else bs
    (cd.unmarshalMsg bs1, none)

/-! ## Configuration loading: config.Load and processOriginConfigs -/

/-- Nanoseconds in time.Second; Go durations are counts of nanoseconds. -/
def second : Int := 1000000000

/-- Go int64 wraparound: the int64 value with the same low 64 bits as the
unbounded integer, i.e. reduction into [-2^63, 2^63). -/
def wrap64 (x : Int) : Int :=
  (x + 9223372036854775808) % 18446744073709551616 - 9223372036854775808

/-- Go time.Duration(secs) * time.Second: int64 multiplication of the second
count by 1e9, silently wrapping on overflow as Go multiplication does. -/
def goDuration (secs : Int) : Int := wrap64 (secs * second)

/-- TTL-related fields of config.OriginConfig: the configured second counts
and the derived time.Duration fields. -/
structure OriginTTLConfig where
  timeseriesTTLSecs : Int
  fastForwardTTLSecs : Int
  maxTTLSecs : Int
  timeseriesTTL : Int
  fastForwardTTL : Int
  maxTTL : Int
deriving DecidableEq, Repr

/-- Load lines 124-126: derive the Duration fields from the second counts. -/
def setOriginTTLDurations (o : OriginTTLConfig) : OriginTTLConfig :=
  { o with
    timeseriesTTL := goDuration o.timeseriesTTLSecs
    fastForwardTTL := goDuration o.fastForwardTTLSecs
    maxTTL := goDuration o.maxTTLSecs }

/-- Load lines 144-154: clamp TimeseriesTTL and FastForwardTTL to MaxTTL. -/
def enforceMaxTTL (o : OriginTTLConfig) : OriginTTLConfig :=
  let o1 :=
    if o.timeseriesTTLSecs > o.maxTTLSecs then
      { o with timeseriesTTLSecs := o.maxTTLSecs, timeseriesTTL := o.maxTTL }
    else o
  if o1.fastForwardTTLSecs > o1.maxTTLSecs then
    { o1 with fastForwardTTLSecs := o1.maxTTLSecs, fastForwardTTL := o1.maxTTL }
  else o1

/-- TTL processing Load performs for each origin (lines 121-154, TTL part). -/
def loadOriginTTLs (o : OriginTTLConfig) : OriginTTLConfig :=
  enforceMaxTTL (setOriginTTLDurations o)

/-- processOriginConfigs lines 536-542 restricted to the IsDefault field:
NewOriginConfig leaves IsDefault at the Go zero value false; when is_default
is defined in the file, the file value is copied; when the configuration has
exactly one origin and is_default is not defined, it is set to true. -/
def processIsDefault (numOrigins : Nat) (defined : Bool) (fileValue : Bool) : Bool :=
  let oc := false
  let oc := if defined then fileValue else oc
  if numOrigins = 1 ∧ defined = false then true else oc

/-! ## Claims C1 and C10 -/

/-- C1: for every cache configuration (Compression on or off), key, TTL and
document, if WriteCache returns no error then a subsequent QueryCache returns
no error and yields the document with the Date header deleted; the .sz suffix
is appended on store exactly when it is appended on retrieve. The msgp and
snappy codecs are external; their round-trip contracts are hypotheses. -/
theorem writeCache_queryCache_roundtrip (cd : Codec) (st : CacheState) (key : String)
    (d : HTTPDocument) (ttl : Int)
    (hmarshal : ∀ bs, cd.marshalMsg (docSansDate d) = some bs →
      cd.unmarshalMsg bs = docSansDate d)
    (hsnappy : ∀ bs, cd.snappyDecode (cd.snappyEncode bs) = some bs)
    (hok : (WriteCache cd st key d ttl).2 = none) :
    QueryCache cd (WriteCache cd st key d ttl).1 key = (docSansDate d, none) ∧
      writeCacheKey st.config.compression key = queryCacheKey st.config.compression key := by
  refine ⟨?_, rfl⟩
  cases hm : cd.marshalMsg (docSansDate d) with
  | none =>
    exfalso
    simp [WriteCache, hm] at hok
  | some bs =>
    by_cases hc : st.config.compression
    · simp [WriteCache, hm, hc, cacheStoreOp, QueryCache, cacheRetrieveOp,
        queryCacheKey, writeCacheKey, List.find?, hsnappy bs, hmarshal bs hm]
    · simp [WriteCache, hm, hc, cacheStoreOp, QueryCache, cacheRetrieveOp,
        queryCacheKey, writeCacheKey, List.find?, hmarshal bs hm]

/-- Concrete key used by the witnesses. -/
def keyW : String := "k1"

/-- Concrete document used by the witnesses, carrying a Date header. -/
def dW : HTTPDocument :=
  { statusCode := 200, status := "OK",
    headers := [("Date", ["Mon"]), ("X-A", ["b"])], body := [1, 2, 3] }

/-- Concrete compressing cache state used by the witnesses. -/
def stW : CacheState := { config := { compression := true }, store := [] }

/-- Concrete codec satisfying the round-trip contracts at the witness input. -/
def cdW : Codec :=
  { marshalMsg := fun _ => some [9]
    unmarshalMsg := fun _ => docSansDate dW
    snappyEncode := fun bs => bs
    snappyDecode := fun bs => some bs }

/-- Witness for C1 at a concrete compressing cache, document and codec. -/
theorem writeCache_queryCache_roundtrip_witness :
    QueryCache cdW (WriteCache cdW stW keyW dW 5).1 keyW = (docSansDate dW, none) ∧
      writeCacheKey stW.config.compression keyW = queryCacheKey stW.config.compression keyW :=
  writeCache_queryCache_roundtrip cdW stW keyW dW 5
    (fun bs h => by
      simp only [cdW, Option.some.injEq] at h
      subst h
      rfl)
    (fun _ => rfl)
    (by rfl)

/-- C10: QueryCache returns a non-nil error exactly when the underlying
Retrieve fails; for any retrieved byte sequence the error is nil, a snappy
decode failure is silently ignored (the raw bytes are passed on to
UnmarshalMsg), and the resulting document is returned with a nil error. -/
theorem queryCache_error_only_from_retrieve (cd : Codec) (st : CacheState) (key : String) :
    ((QueryCache cd st key).2 ≠ none ↔
        cacheRetrieveOp st (queryCacheKey st.config.compression key) = none) ∧
      (∀ bs, cacheRetrieveOp st (queryCacheKey st.config.compression key) = some bs →
        st.config.compression = true → cd.snappyDecode bs = none →
        QueryCache cd st key = (cd.unmarshalMsg bs, none)) ∧
      (∀ bs, cacheRetrieveOp st (queryCacheKey st.config.compression key) = some bs →
        (QueryCache cd st key).2 = none) := by
  refine ⟨?_, ?_, ?_⟩
  · cases hr : cacheRetrieveOp st (queryCacheKey st.config.compression key) with
    | none => simp [QueryCache, hr]
    | some bs => simp [QueryCache, hr]
  · intro bs hr hc hd
    rw [hc] at hr
    simp [QueryCache, hc, hr, hd]
  · intro bs hr
    simp [QueryCache, hr]

/-- Concrete key used by the C10 witness. -/
def keyX : String := "k2"

/-- Concrete non-compressing cache state holding bytes under keyX. -/
def stX : CacheState := { config := { compression := false }, store := [(keyX, [7])] }

/-- Witness for C10: on a concrete cache holding bytes for the key, QueryCache
returns a nil error. -/
theorem queryCache_error_only_from_retrieve_witness :
    (QueryCache cdW stX keyX).2 = none :=
  (queryCache_error_only_from_retrieve cdW stX keyX).2.2 [7] (by rfl)

/-! ## Claims C6, C7, C9 -/

/-- Wraparound is the identity inside the int64 range. -/
theorem wrap64_eq_self (x : Int) (h1 : -9223372036854775808 ≤ x)
    (h2 : x < 9223372036854775808) : wrap64 x = x := by
  unfold wrap64
  omega

/-- C6 (amended): after Load processes an origin, the second-count fields
always satisfy TimeseriesTTLSecs ≤ MaxTTLSecs and FastForwardTTLSecs ≤
MaxTTLSecs; when the configured second counts convert to nanoseconds inside
the int64 range (no Duration wraparound), the Duration fields also satisfy
TimeseriesTTL ≤ MaxTTL and FastForwardTTL ≤ MaxTTL, and the timeseries
storage TTL equals min(timeseriesTTL, maxTTL). -/
theorem load_clamps_ttls_to_max (o : OriginTTLConfig)
    (hts : -9223372036854775808 ≤ o.timeseriesTTLSecs * second ∧
      o.timeseriesTTLSecs * second < 9223372036854775808)
    (hff : -9223372036854775808 ≤ o.fastForwardTTLSecs * second ∧
      o.fastForwardTTLSecs * second < 9223372036854775808)
    (hmax : -9223372036854775808 ≤ o.maxTTLSecs * second ∧
      o.maxTTLSecs * second < 9223372036854775808) :
    (loadOriginTTLs o).timeseriesTTLSecs ≤ (loadOriginTTLs o).maxTTLSecs ∧
    (loadOriginTTLs o).fastForwardTTLSecs ≤ (loadOriginTTLs o).maxTTLSecs ∧
    (loadOriginTTLs o).timeseriesTTL ≤ (loadOriginTTLs o).maxTTL ∧
    (loadOriginTTLs o).fastForwardTTL ≤ (loadOriginTTLs o).maxTTL ∧
    (loadOriginTTLs o).timeseriesTTL
      = min (o.timeseriesTTLSecs * second) (o.maxTTLSecs * second) := by
  have e1 : goDuration o.timeseriesTTLSecs = o.timeseriesTTLSecs * second :=
    wrap64_eq_self _ hts.1 hts.2
  have e2 : goDuration o.fastForwardTTLSecs = o.fastForwardTTLSecs * second :=
    wrap64_eq_self _ hff.1 hff.2
  have e3 : goDuration o.maxTTLSecs = o.maxTTLSecs * second :=
    wrap64_eq_self _ hmax.1 hmax.2
  by_cases h1 : o.timeseriesTTLSecs > o.maxTTLSecs <;>
    by_cases h2 : o.fastForwardTTLSecs > o.maxTTLSecs <;>
    simp [loadOriginTTLs, setOriginTTLDurations, enforceMaxTTL, e1, e2, e3,
      second, h1, h2] <;>
    omega

/-- Origin TTL config with an in-int64-range max whose nanosecond conversion
overflows: 10^10 seconds times 1e9 wraps negative. -/
def oTTLOverflowW : OriginTTLConfig :=
  { timeseriesTTLSecs := 9000000000, fastForwardTTLSecs := 0,
    maxTTLSecs := 10000000000,
    timeseriesTTL := 0, fastForwardTTL := 0, maxTTL := 0 }

/-- C6 counterexample: with TimeseriesTTLSecs = 9e9 and MaxTTLSecs = 1e10 the
clamp does not fire (9e9 ≤ 1e10), yet in Go MaxTTL wraps negative while
TimeseriesTTL stays 9e18, so TimeseriesTTL ≤ MaxTTL is false of the program
at this configuration, refuting the claim as stated. -/
theorem load_ttl_overflow_counterexample :
    (loadOriginTTLs oTTLOverflowW).timeseriesTTL = 9000000000000000000 ∧
      (loadOriginTTLs oTTLOverflowW).maxTTL = -8446744073709551616 ∧
      ¬ (loadOriginTTLs oTTLOverflowW).timeseriesTTL
          ≤ (loadOriginTTLs oTTLOverflowW).maxTTL := by
  decide

/-- Origin TTL config used by the C6 witness: in-range second counts with
the timeseries and fast-forward TTLs exceeding the max. -/
def oTTLW : OriginTTLConfig :=
  { timeseriesTTLSecs := 100, fastForwardTTLSecs := 80, maxTTLSecs := 50,
    timeseriesTTL := 0, fastForwardTTL := 0, maxTTL := 0 }

/-- Witness for C6 at a concrete in-range configuration. -/
theorem load_clamps_ttls_to_max_witness :
    (loadOriginTTLs oTTLW).timeseriesTTLSecs ≤ (loadOriginTTLs oTTLW).maxTTLSecs ∧
    (loadOriginTTLs oTTLW).fastForwardTTLSecs ≤ (loadOriginTTLs oTTLW).maxTTLSecs ∧
    (loadOriginTTLs oTTLW).timeseriesTTL ≤ (loadOriginTTLs oTTLW).maxTTL ∧
    (loadOriginTTLs oTTLW).fastForwardTTL ≤ (loadOriginTTLs oTTLW).maxTTL ∧
    (loadOriginTTLs oTTLW).timeseriesTTL
      = min (oTTLW.timeseriesTTLSecs * second) (oTTLW.maxTTLSecs * second) :=
  load_clamps_ttls_to_max oTTLW (by decide) (by decide) (by decide)

/-- C9: with exactly one origin and is_default not present in the file,
processOriginConfigs marks the origin default; when is_default is present,
the explicit file value is kept. -/
theorem processIsDefault_spec (numOrigins : Nat) (defined fileValue : Bool) :
    (numOrigins = 1 → defined = false →
      processIsDefault numOrigins defined fileValue = true) ∧
    (defined = true → processIsDefault numOrigins defined fileValue = fileValue) := by
  constructor
  · intro h1 h2
    simp [processIsDefault, h1, h2]
  · intro h
    simp [processIsDefault, h]

/-- Witness for C9: one origin, is_default absent, becomes the default. -/
theorem processIsDefault_spec_witness :
    processIsDefault 1 false false = true :=
  (processIsDefault_spec 1 false false).1 rfl rfl

/-! ## Path registration order: registerPathRoutes (part_000 lines 178-228) -/

/-- Insertion step ordered by ByLen.Less (part_000 lines 261-263): the
shorter string sorts first. -/
def insertByLen (s : String) : List String → List String
  | [] => [s]
  | t :: rest =>
    if s.length ≤ t.length then s :: t :: rest else t :: insertByLen s rest

/-- Observable result of sort.Sort(ByLen(plist)) at line 193: a permutation
of the candidate keys ascending by string length. -/
def sortByLen (l : List String) : List String := l.foldr insertByLen []

/-- Lines 193-197: the candidate list is sorted ascending by length and the
swap loop then reverses it in place; the registration loop at line 199 walks
this reversed list. -/
def registrationOrder (l : List String) : List String := (sortByLen l).reverse

/-- Inserting into a list permutes consing onto it. -/
theorem insertByLen_perm (s : String) (l : List String) :
    (insertByLen s l).Perm (s :: l) := by
  induction l with
  | nil => simp [insertByLen]
  | cons t rest ih =>
    unfold insertByLen
    by_cases h : s.length ≤ t.length
    · rw [if_pos h]
    · rw [if_neg h]
      exact (ih.cons t).trans (List.Perm.swap s t rest)

/-- Inserting into an ascending-by-length list keeps it ascending. -/
theorem insertByLen_sorted (s : String) (l : List String)
    (h : l.Pairwise fun a b => a.length ≤ b.length) :
    (insertByLen s l).Pairwise fun a b => a.length ≤ b.length := by
  induction l with
  | nil => simp [insertByLen]
  | cons t rest ih =>
    rw [List.pairwise_cons] at h
    obtain ⟨ht, hrest⟩ := h
    unfold insertByLen
    by_cases hc : s.length ≤ t.length
    · rw [if_pos hc, List.pairwise_cons]
      refine ⟨?_, List.pairwise_cons.mpr ⟨ht, hrest⟩⟩
      intro b hb
      rcases List.mem_cons.mp hb with rfl | hb
      · exact hc
      · exact hc.trans (ht b hb)
    · rw [if_neg hc, List.pairwise_cons]
      refine ⟨?_, ih hrest⟩
      intro b hb
      rcases List.mem_cons.mp ((insertByLen_perm s rest).mem_iff.mp hb) with rfl | hb
      · omega
      · exact ht b hb

/-- The modelled sort is ascending by string length. -/
theorem sortByLen_sorted (l : List String) :
    (sortByLen l).Pairwise fun a b => a.length ≤ b.length := by
  induction l with
  | nil => simp [sortByLen]
  | cons s rest ih => exact insertByLen_sorted s (sortByLen rest) ih

/-- The modelled sort permutes its input. -/
theorem sortByLen_perm (l : List String) : (sortByLen l).Perm l := by
  induction l with
  | nil => simp [sortByLen]
  | cons s rest ih =>
    exact (insertByLen_perm s (sortByLen rest)).trans (ih.cons s)

/-! ## Claim C8 -/

/-- C8: within one origin the registration loop visits exactly the candidate
path keys (a permutation) in non-increasing length order, longest first, so a
longer rule is registered before, and shadows, a shorter one. -/
theorem registration_longest_first (plist : List String) :
    ((registrationOrder plist).Pairwise fun a b => b.length ≤ a.length) ∧
      (registrationOrder plist).Perm plist := by
  constructor
  · rw [registrationOrder, List.pairwise_reverse]
    exact sortByLen_sorted plist
  · exact ((sortByLen plist).reverse_perm).trans (sortByLen_perm plist)

/-! ## Route registration: RegisterProxyRoutes (part_000 lines 41-95) -/

/-- Fields of config.OriginConfig that RegisterProxyRoutes branches on. -/
structure OriginCfg where
  originType : String
  isDefault : Bool
deriving DecidableEq, Repr

/-- Modelled from the spec: config.IsValidOriginType is referenced at
part_000 line 50 but its definition is not under src; spec section 3 types an
origin as prometheus, influxdb, clickhouse, irondb or rpc. -/
def IsValidOriginType (t : String) : Bool :=
  t == "prometheus" || t == "influxdb" || t == "clickhouse" || t == "irondb"
    || t == "rpc"

/-- Errors RegisterProxyRoutes can return from the default-origin checks. -/
inductive RegError where
  | unknownOriginType (name originType : String)
  | duplicateDefault (first second : String)
deriving DecidableEq, Repr

/-- Registration event: the origin name passed to registerOriginRoutes and
whether registerPathRoutes runs its IsDefault branch (root-path registration)
for it. registerOriginRoutes itself is modelled as succeeding: its failure
modes (GetCache, client construction) come from collaborators out of scope. -/
abbrev RegEvent := String × Bool

/-- Loop of RegisterProxyRoutes (lines 48-75) over the origins in iteration
order, carrying defaultOrigin, ndo (origin named default), cdo (origin
flagged default) and the registrations performed so far. -/
def rprLoop : List (String × OriginCfg) → String → Option OriginCfg →
    Option OriginCfg → List RegEvent →
    Except RegError (String × Option OriginCfg × Option OriginCfg × List RegEvent)
  | [], dn, ndo, cdo, acc => .ok (dn, ndo, cdo, acc)
  | (k, o) :: rest, dn, ndo, cdo, acc =>
    if IsValidOriginType o.originType = false then
      .error (.unknownOriginType k o.originType)
    else if o.isDefault then
      match cdo with
      | some _ => .error (.duplicateDefault dn k)
      | none => rprLoop rest k ndo (some o) acc
    else if k = "default" then
      rprLoop rest dn (some o) cdo acc
    else
      rprLoop rest dn ndo cdo (acc ++ [(k, o.isDefault)])

/-- RegisterProxyRoutes (lines 41-95): the loop, then the post-pass handling
of ndo and cdo (lines 77-92), returning the registration events in order.
When ndo exists and no origin is flagged, line 79 sets its IsDefault before
registering it, so its event carries true. -/
def RegisterProxyRoutes (origins : List (String × OriginCfg)) :
    Except RegError (List RegEvent) :=
  match rprLoop origins "" none none [] with
  | .error e => .error e
  | .ok (dn, ndo, cdo, acc) =>
    match ndo, cdo with
    | some _, none => .ok (acc ++ [("default", true)])
    | some nd, some cd => .ok (acc ++ [("default", nd.isDefault)] ++ [(dn, cd.isDefault)])
    | none, some cd => .ok (acc ++ [(dn, cd.isDefault)])
    | none, none => .ok acc

/-- Value of the ndo pointer after iterating a run of origins: the last one
named default, if any. -/
def ndoAfter (L : List (String × OriginCfg)) (ndo : Option OriginCfg) :
    Option OriginCfg :=
  L.foldl (fun a p => if p.1 = "default" then some p.2 else a) ndo

/-- Registration events the loop emits for a run of unflagged origins: one
per origin not named default. -/
def eventsOf (L : List (String × OriginCfg)) : List RegEvent :=
  (L.filter (fun p => p.1 != "default")).map fun p => (p.1, p.2.isDefault)

/-- One-step unfolding of the loop on a cons cell. -/
theorem rprLoop_cons (k : String) (o : OriginCfg) (rest : List (String × OriginCfg))
    (dn : String) (ndo cdo : Option OriginCfg) (acc : List RegEvent) :
    rprLoop ((k, o) :: rest) dn ndo cdo acc =
      if IsValidOriginType o.originType = false then
        .error (.unknownOriginType k o.originType)
      else if o.isDefault then
        match cdo with
        | some _ => .error (.duplicateDefault dn k)
        | none => rprLoop rest k ndo (some o) acc
      else if k = "default" then
        rprLoop rest dn (some o) cdo acc
      else
        rprLoop rest dn ndo cdo (acc ++ [(k, o.isDefault)]) := rfl

/-- On a run of valid, unflagged origins the loop succeeds, keeps
defaultOrigin and cdo, updates ndo, and registers the rest in order. -/
theorem rprLoop_unflagged (L : List (String × OriginCfg)) :
    ∀ dn ndo cdo acc,
      (∀ p ∈ L, IsValidOriginType p.2.originType = true) →
      (∀ p ∈ L, p.2.isDefault = false) →
      rprLoop L dn ndo cdo acc = .ok (dn, ndoAfter L ndo, cdo, acc ++ eventsOf L) := by
  induction L with
  | nil =>
    intro dn ndo cdo acc _ _
    simp [rprLoop, ndoAfter, eventsOf]
  | cons p rest ih =>
    intro dn ndo cdo acc hvalid hflag
    obtain ⟨k, o⟩ := p
    have hv : IsValidOriginType o.originType = true := hvalid (k, o) (by simp)
    have hf : o.isDefault = false := hflag (k, o) (by simp)
    have hvr : ∀ q ∈ rest, IsValidOriginType q.2.originType = true :=
      fun q hq => hvalid q (List.mem_cons_of_mem _ hq)
    have hfr : ∀ q ∈ rest, q.2.isDefault = false :=
      fun q hq => hflag q (List.mem_cons_of_mem _ hq)
    rw [rprLoop_cons, if_neg (by simp [hv]), if_neg (by simp [hf])]
    by_cases hk : k = "default"
    · rw [if_pos hk, ih dn (some o) cdo acc hvr hfr]
      simp [ndoAfter, eventsOf, hk]
    · rw [if_neg hk, ih dn ndo cdo (acc ++ [(k, o.isDefault)]) hvr hfr]
      simp [ndoAfter, eventsOf, hk]

/-- If cdo is already set, the first flagged origin in the remaining run
triggers the duplicate-default error naming defaultOrigin and that origin. -/
theorem rprLoop_duplicate (L : List (String × OriginCfg)) :
    ∀ dn ndo c acc,
      (∀ p ∈ L, IsValidOriginType p.2.originType = true) →
      0 < L.countP (fun p => p.2.isDefault) →
      ∃ b ob, (b, ob) ∈ L ∧ ob.isDefault = true ∧
        rprLoop L dn ndo (some c) acc = .error (.duplicateDefault dn b) := by
  induction L with
  | nil =>
    intro dn ndo c acc _ hcount
    simp at hcount
  | cons p rest ih =>
    intro dn ndo c acc hvalid hcount
    obtain ⟨k, o⟩ := p
    have hv : IsValidOriginType o.originType = true := hvalid (k, o) (by simp)
    have hvr : ∀ q ∈ rest, IsValidOriginType q.2.originType = true :=
      fun q hq => hvalid q (List.mem_cons_of_mem _ hq)
    by_cases hf : o.isDefault
    · exact ⟨k, o, by simp, hf, by
        rw [rprLoop_cons, if_neg (by simp [hv]), if_pos hf]⟩
    · have hfb : o.isDefault = false := by
        cases hb : o.isDefault
        · rfl
        · exact absurd hb hf
      have hcount2 : 0 < rest.countP (fun p => p.2.isDefault) := by
        simpa [List.countP_cons, hfb] using hcount
      by_cases hk : k = "default"
      · obtain ⟨b, ob, hm, hob, he⟩ := ih dn (some o) c acc hvr hcount2
        refine ⟨b, ob, List.mem_cons_of_mem _ hm, hob, ?_⟩
        rw [rprLoop_cons, if_neg (by simp [hv]), if_neg (by simp [hfb]), if_pos hk]
        exact he
      · obtain ⟨b, ob, hm, hob, he⟩ :=
          ih dn ndo c (acc ++ [(k, o.isDefault)]) hvr hcount2
        refine ⟨b, ob, List.mem_cons_of_mem _ hm, hob, ?_⟩
        rw [rprLoop_cons, if_neg (by simp [hv]), if_neg (by simp [hfb]), if_neg hk]
        exact he

/-- The loop succeeds whenever at most one flagged default is pending in
total across the remaining origins and the cdo slot. -/
theorem rprLoop_ok_of_le_one (L : List (String × OriginCfg)) :
    ∀ dn ndo cdo acc,
      (∀ p ∈ L, IsValidOriginType p.2.originType = true) →
      L.countP (fun p => p.2.isDefault) + (if cdo.isSome then 1 else 0) ≤ 1 →
      ∃ dn1 ndo1 cdo1 acc1,
        rprLoop L dn ndo cdo acc = .ok (dn1, ndo1, cdo1, acc1) := by
  induction L with
  | nil =>
    intro dn ndo cdo acc _ _
    exact ⟨dn, ndo, cdo, acc, rfl⟩
  | cons p rest ih =>
    intro dn ndo cdo acc hvalid hle
    obtain ⟨k, o⟩ := p
    have hv : IsValidOriginType o.originType = true := hvalid (k, o) (by simp)
    have hvr : ∀ q ∈ rest, IsValidOriginType q.2.originType = true :=
      fun q hq => hvalid q (List.mem_cons_of_mem _ hq)
    rw [rprLoop_cons, if_neg (by simp [hv])]
    by_cases hf : o.isDefault
    · rw [if_pos hf]
      cases cdo with
      | some c =>
        exfalso
        rw [List.countP_cons] at hle
        simp [hf] at hle
      | none =>
        have hle2 : rest.countP (fun p => p.2.isDefault)
            + (if (some o).isSome then 1 else 0) ≤ 1 := by
          rw [List.countP_cons] at hle
          simp [hf] at hle
          simpa using hle
        exact ih k ndo (some o) acc hvr hle2
    · have hfb : o.isDefault = false := by simpa using hf
      rw [if_neg (by simp [hfb])]
      have hle2 : rest.countP (fun p => p.2.isDefault)
          + (if cdo.isSome then 1 else 0) ≤ 1 := by
        rw [List.countP_cons] at hle
        simpa [hfb] using hle
      by_cases hk : k = "default"
      · rw [if_pos hk]
        exact ih dn (some o) cdo acc hvr hle2
      · rw [if_neg hk]
        exact ih dn ndo cdo (acc ++ [(k, o.isDefault)]) hvr hle2

/-- With no duplicate keys, a key determines its value in the list. -/
theorem nodupKeys_value_eq {β : Type} (l : List (String × β))
    (h : (l.map Prod.fst).Nodup) {a : String} {b1 b2 : β}
    (h1 : (a, b1) ∈ l) (h2 : (a, b2) ∈ l) : b1 = b2 := by
  induction l with
  | nil => cases h1
  | cons p rest ih =>
    obtain ⟨x, y⟩ := p
    rw [List.map_cons, List.nodup_cons] at h
    obtain ⟨hx, hrest⟩ := h
    rcases List.mem_cons.mp h1 with h1e | h1r
    · injection h1e with ha hb
      subst ha
      subst hb
      rcases List.mem_cons.mp h2 with h2e | h2r
      · injection h2e with _ hb2
        exact hb2.symm
      · exact absurd (List.mem_map_of_mem Prod.fst h2r) hx
    · rcases List.mem_cons.mp h2 with h2e | h2r
      · injection h2e with ha _
        subst ha
        exact absurd (List.mem_map_of_mem Prod.fst h1r) hx
      · exact ih hrest h1r h2r

/-- One-step unfolding of ndoAfter on a cons cell. -/
theorem ndoAfter_cons (k : String) (o : OriginCfg) (rest : List (String × OriginCfg))
    (x : Option OriginCfg) :
    ndoAfter ((k, o) :: rest) x
      = ndoAfter rest (if k = "default" then some o else x) := rfl

/-- ndoAfter ignores runs with no origin named default. -/
theorem ndoAfter_no_default (L : List (String × OriginCfg)) :
    ∀ x, ("default") ∉ L.map Prod.fst → ndoAfter L x = x := by
  induction L with
  | nil =>
    intro x _
    rfl
  | cons p rest ih =>
    intro x hmem
    obtain ⟨k, o⟩ := p
    rw [List.map_cons] at hmem
    simp only [List.mem_cons, not_or] at hmem
    obtain ⟨hk, hrest⟩ := hmem
    rw [ndoAfter_cons, if_neg (fun h => hk h.symm)]
    exact ih x hrest

/-- When the run contains the origin named default (unique by nodup keys),
ndoAfter yields it regardless of the start value. -/
theorem ndoAfter_mem (L : List (String × OriginCfg)) :
    ∀ x nd, ("default", nd) ∈ L → (L.map Prod.fst).Nodup →
      ndoAfter L x = some nd := by
  induction L with
  | nil =>
    intro x nd h _
    cases h
  | cons p rest ih =>
    intro x nd hmem hnodup
    obtain ⟨k, o⟩ := p
    rw [List.map_cons, List.nodup_cons] at hnodup
    obtain ⟨hk, hrest⟩ := hnodup
    rcases List.mem_cons.mp hmem with he | hr
    · injection he with h1 h2
      subst h1
      subst h2
      rw [ndoAfter_cons, if_pos rfl]
      exact ndoAfter_no_default rest (some nd) hk
    · have hkne : ¬ k = "default" := by
        intro hkd
        subst hkd
        exact hk (List.mem_map.mpr ⟨("default", nd), hr, rfl⟩)
      rw [ndoAfter_cons, if_neg hkne]
      exact ih _ nd hr hrest

/-- Running the loop over a concatenation runs it over the parts. -/
theorem rprLoop_append (L1 L2 : List (String × OriginCfg)) :
    ∀ dn ndo cdo acc,
      rprLoop (L1 ++ L2) dn ndo cdo acc =
        match rprLoop L1 dn ndo cdo acc with
        | .error e => .error e
        | .ok (dn1, ndo1, cdo1, acc1) => rprLoop L2 dn1 ndo1 cdo1 acc1 := by
  induction L1 with
  | nil =>
    intro dn ndo cdo acc
    rfl
  | cons p rest ih =>
    intro dn ndo cdo acc
    obtain ⟨k, o⟩ := p
    rw [List.cons_append, rprLoop_cons, rprLoop_cons]
    by_cases h1 : IsValidOriginType o.originType = false
    · rw [if_pos h1, if_pos h1]
    · rw [if_neg h1, if_neg h1]
      by_cases h2 : o.isDefault
      · rw [if_pos h2, if_pos h2]
        cases cdo with
        | some c => rfl
        | none => exact ih k ndo (some o) acc
      · rw [if_neg h2, if_neg h2]
        by_cases h3 : k = "default"
        · rw [if_pos h3, if_pos h3]
          exact ih dn (some o) cdo acc
        · rw [if_neg h3, if_neg h3]
          exact ih dn ndo cdo (acc ++ [(k, o.isDefault)])

/-- Existence of a first element satisfying a predicate in a list with a
positive count. -/
theorem exists_first_satisfying {α : Type} (p : α → Bool) (l : List α)
    (h : 0 < l.countP p) :
    ∃ l1 x l2, l = l1 ++ x :: l2 ∧ p x = true ∧ l1.countP p = 0 := by
  induction l with
  | nil => simp at h
  | cons a rest ih =>
    by_cases ha : p a
    · exact ⟨[], a, rest, rfl, ha, rfl⟩
    · have hfb : p a = false := by simpa using ha
      have h2 : 0 < rest.countP p := by
        rw [List.countP_cons] at h
        simpa [hfb] using h
      obtain ⟨l1, x, l2, heq, hx, h0⟩ := ih h2
      exact ⟨a :: l1, x, l2, by rw [heq, List.cons_append], hx,
        by simp [List.countP_cons, hfb, h0]⟩

/-! ## Claims C4 and C5 -/

/-- C4: with valid origin types and unique origin names, two origins flagged
IsDefault make RegisterProxyRoutes return the duplicate-default error naming
two distinct flagged origins, aborting registration; with at most one flagged
origin the check passes and registration succeeds. -/
theorem registerProxyRoutes_default_check (origins : List (String × OriginCfg))
    (hvalid : ∀ p ∈ origins, IsValidOriginType p.2.originType = true)
    (hnodup : (origins.map Prod.fst).Nodup) :
    (2 ≤ origins.countP (fun p => p.2.isDefault) →
      ∃ a b oa ob, a ≠ b ∧ (a, oa) ∈ origins ∧ oa.isDefault = true ∧
        (b, ob) ∈ origins ∧ ob.isDefault = true ∧
        RegisterProxyRoutes origins = .error (.duplicateDefault a b)) ∧
    (origins.countP (fun p => p.2.isDefault) ≤ 1 →
      ∃ l, RegisterProxyRoutes origins = .ok l) := by
  constructor
  · intro h2
    obtain ⟨L1, x, L2, heq, hx, h0⟩ :=
      exists_first_satisfying (fun p => p.2.isDefault) origins (by omega)
    obtain ⟨a, oa⟩ := x
    subst heq
    have hvalid1 : ∀ p ∈ L1, IsValidOriginType p.2.originType = true :=
      fun p hp => hvalid p (List.mem_append_left _ hp)
    have hflag1 : ∀ p ∈ L1, p.2.isDefault = false := by
      intro p hp
      have := List.countP_eq_zero.mp h0 p hp
      simpa using this
    have hvalid2 : ∀ p ∈ L2, IsValidOriginType p.2.originType = true :=
      fun p hp =>
        hvalid p (List.mem_append_right _ (List.mem_cons_of_mem _ hp))
    have hva : IsValidOriginType oa.originType = true :=
      hvalid (a, oa) (List.mem_append_right _ (List.mem_cons_self _ _))
    have hoa : oa.isDefault = true := by simpa using hx
    have hcount2 : 0 < L2.countP (fun p => p.2.isDefault) := by
      rw [List.countP_append, List.countP_cons] at h2
      simp [hoa] at h2
      omega
    obtain ⟨b, ob, hmb, hob, he⟩ :=
      rprLoop_duplicate L2 a (ndoAfter L1 none) oa (eventsOf L1) hvalid2 hcount2
    have hchain : rprLoop (L1 ++ (a, oa) :: L2) ("") none none []
        = .error (.duplicateDefault a b) := by
      rw [rprLoop_append]
      rw [rprLoop_unflagged L1 ("") none none [] hvalid1 hflag1]
      show rprLoop ((a, oa) :: L2) ("") (ndoAfter L1 none) none ([] ++ eventsOf L1)
        = .error (.duplicateDefault a b)
      rw [rprLoop_cons, if_neg (by simp [hva]), if_pos hoa]
      show rprLoop L2 a (ndoAfter L1 none) (some oa) ([] ++ eventsOf L1)
        = .error (.duplicateDefault a b)
      simpa using he
    have hne : a ≠ b := by
      intro hab
      subst hab
      have hnd2 : (a :: L2.map Prod.fst).Nodup := by
        rw [List.map_append, List.map_cons] at hnodup
        exact hnodup.of_append_right
      have : a ∉ L2.map Prod.fst := (List.nodup_cons.mp hnd2).1
      exact this (List.mem_map.mpr ⟨(a, ob), hmb, rfl⟩)
    refine ⟨a, b, oa, ob, hne,
      List.mem_append_right _ (List.mem_cons_self _ _), hoa,
      List.mem_append_right _ (List.mem_cons_of_mem _ hmb), hob, ?_⟩
    simp [RegisterProxyRoutes, hchain]
  · intro h1
    obtain ⟨dn1, ndo1, cdo1, acc1, he⟩ :=
      rprLoop_ok_of_le_one origins ("") none none [] hvalid (by simpa using h1)
    cases ndo1 with
    | none =>
      cases cdo1 with
      | none => exact ⟨acc1, by simp [RegisterProxyRoutes, he]⟩
      | some cd => exact ⟨acc1 ++ [(dn1, cd.isDefault)], by simp [RegisterProxyRoutes, he]⟩
    | some nd =>
      cases cdo1 with
      | none => exact ⟨acc1 ++ [(("default"), true)], by simp [RegisterProxyRoutes, he]⟩
      | some cd =>
        exact ⟨acc1 ++ [(("default"), nd.isDefault)] ++ [(dn1, cd.isDefault)],
          by simp [RegisterProxyRoutes, he]⟩

/-- Origins used by the C4 witness: two flagged defaults. -/
def origins4W : List (String × OriginCfg) :=
  [("a", { originType := "prometheus", isDefault := true }),
   ("b", { originType := "prometheus", isDefault := true })]

/-- Witness for C4: both origins flagged default yields the
duplicate-default error naming the two flagged origins. -/
theorem registerProxyRoutes_default_check_witness :
    ∃ a b oa ob, a ≠ b ∧ (a, oa) ∈ origins4W ∧ oa.isDefault = true ∧
      (b, ob) ∈ origins4W ∧ ob.isDefault = true ∧
      RegisterProxyRoutes origins4W = .error (.duplicateDefault a b) :=
  (registerProxyRoutes_default_check origins4W (by decide) (by decide)).1 (by decide)

/-- C5: with valid types and unique names, when one origin is flagged
IsDefault and a different origin is literally named default but unflagged,
RegisterProxyRoutes registers the named one as an ordinary origin (no
root-path registration) and the flagged one as the default, for every
iteration order; when no origin is flagged, the origin named default is
registered as the default. -/
theorem flagged_default_always_wins (origins : List (String × OriginCfg))
    (hvalid : ∀ p ∈ origins, IsValidOriginType p.2.originType = true)
    (hnodup : (origins.map Prod.fst).Nodup) :
    (∀ f of nd, (f, of) ∈ origins → of.isDefault = true →
      ("default", nd) ∈ origins → nd.isDefault = false →
      origins.countP (fun p => p.2.isDefault) = 1 →
      ∃ acc, RegisterProxyRoutes origins
        = .ok (acc ++ [("default", false), (f, true)])) ∧
    (∀ nd, ("default", nd) ∈ origins →
      origins.countP (fun p => p.2.isDefault) = 0 →
      ∃ acc, RegisterProxyRoutes origins = .ok (acc ++ [("default", true)])) := by
  constructor
  · intro f of nd hmf hof hmn hnd hcount
    have hfne : f ≠ "default" := by
      intro hfd
      subst hfd
      have : of = nd := nodupKeys_value_eq origins hnodup hmf hmn
      rw [this, hnd] at hof
      cases hof
    obtain ⟨L1, L2, heq⟩ := List.append_of_mem hmf
    subst heq
    have hvalid1 : ∀ p ∈ L1, IsValidOriginType p.2.originType = true :=
      fun p hp => hvalid p (List.mem_append_left _ hp)
    have hvalid2 : ∀ p ∈ L2, IsValidOriginType p.2.originType = true :=
      fun p hp =>
        hvalid p (List.mem_append_right _ (List.mem_cons_of_mem _ hp))
    have hvf : IsValidOriginType of.originType = true :=
      hvalid (f, of) (List.mem_append_right _ (List.mem_cons_self _ _))
    have hzero : L1.countP (fun p => p.2.isDefault) = 0 ∧
        L2.countP (fun p => p.2.isDefault) = 0 := by
      rw [List.countP_append, List.countP_cons] at hcount
      simp [hof] at hcount
      omega
    have hflag1 : ∀ p ∈ L1, p.2.isDefault = false := by
      intro p hp
      simpa using List.countP_eq_zero.mp hzero.1 p hp
    have hflag2 : ∀ p ∈ L2, p.2.isDefault = false := by
      intro p hp
      simpa using List.countP_eq_zero.mp hzero.2 p hp
    have hnd1 : (L1.map Prod.fst).Nodup := by
      rw [List.map_append] at hnodup
      exact hnodup.of_append_left
    have hnd2 : (f :: L2.map Prod.fst).Nodup := by
      rw [List.map_append, List.map_cons] at hnodup
      exact hnodup.of_append_right
    have hndo : ndoAfter L2 (ndoAfter L1 none) = some nd := by
      rcases List.mem_append.mp hmn with hin1 | hin2
      · have h1 : ndoAfter L1 none = some nd := ndoAfter_mem L1 none nd hin1 hnd1
        have hdisj : ("default") ∉ L2.map Prod.fst := by
          rw [List.map_append, List.map_cons, List.nodup_append] at hnodup
          intro hd2
          exact hnodup.2.2 (List.mem_map.mpr ⟨("default", nd), hin1, rfl⟩)
            (List.mem_cons_of_mem _ hd2)
        rw [ndoAfter_no_default L2 _ hdisj, h1]
      · have hin2' : ("default", nd) ∈ L2 := by
          rcases List.mem_cons.mp hin2 with hecase | hr
          · exfalso
            injection hecase with hf1 _
            exact hfne hf1.symm
          · exact hr
        exact ndoAfter_mem L2 _ nd hin2' (List.nodup_cons.mp hnd2).2
    have hchain : rprLoop (L1 ++ (f, of) :: L2) ("") none none []
        = .ok (f, some nd, some of, eventsOf L1 ++ eventsOf L2) := by
      rw [rprLoop_append]
      rw [rprLoop_unflagged L1 ("") none none [] hvalid1 hflag1]
      show rprLoop ((f, of) :: L2) ("") (ndoAfter L1 none) none ([] ++ eventsOf L1)
        = .ok (f, some nd, some of, eventsOf L1 ++ eventsOf L2)
      rw [rprLoop_cons, if_neg (by simp [hvf]), if_pos hof]
      show rprLoop L2 f (ndoAfter L1 none) (some of) ([] ++ eventsOf L1)
        = .ok (f, some nd, some of, eventsOf L1 ++ eventsOf L2)
      rw [rprLoop_unflagged L2 f (ndoAfter L1 none) (some of) ([] ++ eventsOf L1)
        hvalid2 hflag2, hndo]
      simp
    refine ⟨eventsOf L1 ++ eventsOf L2, ?_⟩
    rw [RegisterProxyRoutes, hchain]
    simp [hnd, hof]
  · intro nd hmn hcount
    have hflag : ∀ p ∈ origins, p.2.isDefault = false := by
      intro p hp
      simpa using List.countP_eq_zero.mp hcount p hp
    have hchain : rprLoop origins ("") none none []
        = .ok ((""), some nd, none, eventsOf origins) := by
      rw [rprLoop_unflagged origins ("") none none [] hvalid hflag,
        ndoAfter_mem origins none nd hmn hnodup]
      simp
    refine ⟨eventsOf origins, ?_⟩
    rw [RegisterProxyRoutes, hchain]

/-- Origins used by the C5 witness: a flagged origin plus an unflagged
origin literally named default. -/
def origins5W : List (String × OriginCfg) :=
  [("p1", { originType := "prometheus", isDefault := true }),
   ("default", { originType := "influxdb", isDefault := false })]

/-- Witness for C5: the flagged origin p1 is registered as the default and
the origin named default is registered as an ordinary origin. -/
theorem flagged_default_always_wins_witness :
    ∃ acc, RegisterProxyRoutes origins5W
      = .ok (acc ++ [("default", false), (("p1"), true)]) :=
  (flagged_default_always_wins origins5W (by decide) (by decide)).1
    ("p1") ({ originType := "prometheus", isDefault := true })
    ({ originType := "influxdb", isDefault := false })
    (by decide) (by decide) (by decide) (by decide) (by decide)

/-! ## ProxyRequest and Progressive Collapsed Forwarding (part_001) -/

/-- Byte sequence ProxyRequest writes to the downstream client, as a function
of the path being configured progressive, the forwarder already present in
Reqs for the derived key (carrying the byte stream it delivers to clients),
the Content-Length reported for the upstream response (0 when unknown), the
origin MaxObjectSizeBytes, and the upstream body. Lines 72-77: the
non-progressive path copies the upstream body. Lines 80-97: on a Reqs miss
the body reaches the client only inside the cl != 0 && cl < max branch, via
pcf.AddClient; no else branch copies the response. Lines 98-103: on a hit the
caller attaches to the existing forwarder. AddClient delivering the tracked
byte stream in full is the PCF contract of spec section 4.3 (the PCF
implementation itself is not under src). -/
def proxyRequestBody (progressive : Bool) (existing : Option (List Nat))
    (cl : Int) (maxObjectSizeBytes : Int) (body : List Nat) : List Nat :=
  if progressive = false then body
  else
    match existing with
    | none =>
      if cl ≠ 0 ∧ cl < maxObjectSizeBytes then body
      else []
    | some pcfBytes => pcfBytes

/-! ## Claim C3 -/

/-- C3: on the progressive path with no forwarder in flight, when the
Content-Length is unknown (0) or at least MaxObjectSizeBytes, the claim says
the upstream body is still streamed to the client in full, but ProxyRequest
writes nothing: the cl != 0 && cl < MaxObjectSizeBytes guard has no else
branch performing the copy, so the downstream response body is dropped. -/
theorem proxyRequest_bypass_drops_body :
    proxyRequestBody true none 0 1000 [1, 2, 3] = [] ∧
      proxyRequestBody true none 2000 1000 [1, 2, 3] = [] ∧
      [1, 2, 3] ≠ ([] : List Nat) := by
  decide

/-- Program counter of one ProxyRequest task on the progressive path with a
known, under-cap Content-Length: about to Reqs.Load (line 80), about to call
PrepareFetchReader, the upstream fetch (line 83), about to Reqs.Store
(line 89), or finished. -/
inductive TPC where
  | atLoad
  | atFetch
  | atStore
  | tdone
deriving DecidableEq, Repr

/-- Shared state of the interleaving model: whether Reqs holds a forwarder
for the key, the number of upstream fetches issued, the number of callers
attached as clients of an existing forwarder, and each task counter. -/
structure PCFSys where
  slot : Bool
  fetches : Nat
  attached : Nat
  threads : List TPC
deriving DecidableEq, Repr

/-- One atomic step of task i, following part_001 lines 79-103: a Load hit
attaches the caller to the existing forwarder (AddClient) and finishes; a
Load miss proceeds to the fetch; the fetch (PrepareFetchReader) issues the
upstream request; the Store publishes the forwarder in Reqs. An index with no
runnable task leaves the state unchanged. -/
def stepPCF (s : PCFSys) (i : Nat) : PCFSys :=
  match s.threads[i]? with
  | some TPC.atLoad =>
    if s.slot then
      { s with attached := s.attached + 1, threads := s.threads.set i TPC.tdone }
    else
      { s with threads := s.threads.set i TPC.atFetch }
  | some TPC.atFetch =>
    { s with fetches := s.fetches + 1, threads := s.threads.set i TPC.atStore }
  | some TPC.atStore =>
    { s with slot := true, threads := s.threads.set i TPC.tdone }
  | _ => s

/-- Initial state for n concurrent ProxyRequest calls on the same key. -/
def initPCF (n : Nat) : PCFSys :=
  { slot := false, fetches := 0, attached := 0,
    threads := List.replicate n TPC.atLoad }

/-- Run a schedule: a list of task indices, each taking its next step. -/
def runPCF (n : Nat) (sched : List Nat) : PCFSys :=
  sched.foldl stepPCF (initPCF n)

/-- Weight of a task counter: 1 once the task has fetched or attached. -/
def tpcWeight : TPC → Nat
  | TPC.atLoad => 0
  | TPC.atFetch => 0
  | TPC.atStore => 1
  | TPC.tdone => 1

/-- Predicate for a task that has neither fetched nor attached yet. -/
def pendingP : TPC → Bool := fun t => tpcWeight t == 0

/-- Invariant: fetches plus attachments plus still-pending tasks equals the
task count. -/
def pcfInv (s : PCFSys) : Prop :=
  s.fetches + s.attached + s.threads.countP pendingP = s.threads.length

/-- Exchange law for countP under a single-position update. -/
theorem countP_set_exchange (l : List TPC) (p : TPC → Bool) :
    ∀ i t t2, l[i]? = some t →
      (l.set i t2).countP p + (if p t then 1 else 0)
        = l.countP p + (if p t2 then 1 else 0) := by
  induction l with
  | nil =>
    intro i t t2 hg
    simp at hg
  | cons a rest ih =>
    intro i t t2 hg
    cases i with
    | zero =>
      rw [List.getElem?_cons_zero, Option.some.injEq] at hg
      subst hg
      rw [List.set_cons_zero]
      cases hp1 : p a <;> cases hp2 : p t2 <;>
        simp [List.countP_cons, hp1, hp2]
    | succ j =>
      rw [List.getElem?_cons_succ] at hg
      have hih := ih j t t2 hg
      rw [List.set_cons_succ]
      cases hp1 : p a <;> cases hpt : p t <;> cases hpt2 : p t2 <;>
        simp [List.countP_cons, hp1, hpt, hpt2] at hih ⊢ <;> omega

/-- Each step preserves the invariant and the number of tasks. -/
theorem stepPCF_preserves (s : PCFSys) (i : Nat) (h : pcfInv s) :
    pcfInv (stepPCF s i) ∧ (stepPCF s i).threads.length = s.threads.length := by
  unfold pcfInv at h ⊢
  unfold stepPCF
  cases hg : s.threads[i]? with
  | none =>
    dsimp only
    exact ⟨h, rfl⟩
  | some t =>
    cases t with
    | atLoad =>
      dsimp only
      by_cases hs : s.slot
      · rw [if_pos hs]
        have hc := countP_set_exchange s.threads pendingP i TPC.atLoad TPC.tdone hg
        rw [show pendingP TPC.atLoad = true from rfl,
          show pendingP TPC.tdone = false from rfl] at hc
        simp only [if_true, if_false, Bool.false_eq_true] at hc
        refine ⟨?_, by simp⟩
        simp only [List.length_set]
        omega
      · rw [if_neg hs]
        have hc := countP_set_exchange s.threads pendingP i TPC.atLoad TPC.atFetch hg
        rw [show pendingP TPC.atLoad = true from rfl,
          show pendingP TPC.atFetch = true from rfl] at hc
        simp only [if_true] at hc
        refine ⟨?_, by simp⟩
        simp only [List.length_set]
        omega
    | atFetch =>
      dsimp only
      have hc := countP_set_exchange s.threads pendingP i TPC.atFetch TPC.atStore hg
      rw [show pendingP TPC.atFetch = true from rfl,
        show pendingP TPC.atStore = false from rfl] at hc
      simp only [if_true, if_false, Bool.false_eq_true] at hc
      refine ⟨?_, by simp⟩
      simp only [List.length_set]
      omega
    | atStore =>
      dsimp only
      have hc := countP_set_exchange s.threads pendingP i TPC.atStore TPC.tdone hg
      rw [show pendingP TPC.atStore = false from rfl,
        show pendingP TPC.tdone = false from rfl] at hc
      simp only [if_false, Bool.false_eq_true] at hc
      refine ⟨?_, by simp⟩
      simp only [List.length_set]
      omega
    | tdone =>
      dsimp only
      exact ⟨h, rfl⟩

/-- Folding a schedule preserves the invariant and the task count. -/
theorem foldlPCF_preserves (sched : List Nat) :
    ∀ s, pcfInv s →
      pcfInv (sched.foldl stepPCF s)
      ∧ (sched.foldl stepPCF s).threads.length = s.threads.length := by
  induction sched with
  | nil =>
    intro s h
    exact ⟨h, rfl⟩
  | cons i rest ih =>
    intro s h
    obtain ⟨h1, h2⟩ := stepPCF_preserves s i h
    obtain ⟨h3, h4⟩ := ih (stepPCF s i) h1
    rw [List.foldl_cons]
    exact ⟨h3, by rw [h4, h2]⟩

/-! ## Claim C2 -/

/-- C2 counterexample: with two concurrent ProxyRequest calls on the same
progressive key, the schedule letting both tasks Load the Reqs map before
either Stores its forwarder issues two upstream fetches while the first is
still in flight, refuting the at-most-one-fetch guarantee: the forwarder is
stored only after the first fetch has begun, and Load plus Store are not one
atomic operation. -/
theorem pcf_double_fetch_counterexample :
    (runPCF 2 [0, 1, 0, 1]).fetches = 2
      ∧ ¬ (runPCF 2 [0, 1, 0, 1]).fetches ≤ 1 := by
  decide

/-- C2 amended: in every interleaving of n concurrent ProxyRequest calls on
one progressive key, each caller either attaches as a client of a forwarder
it found in Reqs (issuing no upstream fetch of its own) or issues at most one
upstream fetch, so fetches plus attachments never exceed n. -/
theorem pcf_fetch_attach_bound (n : Nat) (sched : List Nat) :
    (runPCF n sched).fetches + (runPCF n sched).attached ≤ n := by
  have hrep : ∀ m : Nat,
      (List.replicate m TPC.atLoad).countP pendingP = m := by
    intro m
    induction m with
    | zero => rfl
    | succ k ihm =>
      simp [List.replicate_succ, List.countP_cons, ihm,
        show pendingP TPC.atLoad = true from rfl]
  have h0 : pcfInv (initPCF n) := by
    simp [pcfInv, initPCF, hrep n]
  obtain ⟨hinv, hlen⟩ := foldlPCF_preserves sched (initPCF n) h0
  unfold pcfInv at hinv
  have hlen2 : (initPCF n).threads.length = n := by
    simp [initPCF]
  unfold runPCF
  omega

end Trickster
